import Mathlib

/-!
Verification of the Marble scoped knowledge ingestion and retrieval engine.

The definitions below are a shallow embedding of the TypeScript source:
  * `api/src/lib/vectorize.ts` — namespace tokens (URL-safe, padding-stripped
    base64), the V2 (global-with-metadata-filter) query path with its
    unfiltered retry, and match normalization (`buildMatch`);
  * `api/src/lib/ingestion.ts` — the tail of `ingestFileById` (zero-segment
    check, embedding-count check, replace protocol, insert loop);
  * `api/src/routes/session.ts` — `handleChat` (mode selection, namespace
    resolution, fan-out, best-score-per-chunk merge, hydration, persistence).

Machine strings are modelled by Lean `String` (one entry per code point; the
JavaScript `btoa` Latin-1 restriction is expressed as a bound on code points),
floating-point scores by `Rat`, and the relational store plus the vector index
by explicit state records.  Platform built-ins `btoa`/`atob` are modelled as
standard base64 over code units.
-/

namespace Marble

/-- Visibility tier of a folder, file or chunk (`types.ts`). -/
inductive Visibility where
  | organization
  | team
  | personal
deriving DecidableEq, Repr

/-! ## Base64 (model of the platform `btoa` / `atob` built-ins)

`encodeIdentifier` in `vectorize.ts` calls `btoa` and then makes the result
URL-safe and padding-free; `decodeIdentifier` re-pads, undoes the URL-safe
substitution and calls `atob`.  We model `btoa`/`atob` as standard base64 over
the string's code units: `btoa` fails (throws) when some code unit exceeds
0xFF. -/

/-- The standard base64 alphabet, as a list of characters. -/
def b64Alphabet : List Char :=
  "ABCDEFGHIJKLMNOPQRSTUVWXYZabcdefghijklmnopqrstuvwxyz0123456789+/".toList

/-- Character for a six-bit value. -/
def sixBitChar (n : Nat) : Char := b64Alphabet.getD n 'A'

/-- Index of a character in the base64 alphabet (inverse of `sixBitChar`). -/
def b64index (c : Char) : Option Nat := b64Alphabet.indexOf? c

/-- Encode a byte list as padded base64 characters, three bytes at a time. -/
def encodeChunks : List Nat → List Char
  | [] => []
  | [b1] =>
      [sixBitChar (b1 / 4), sixBitChar (b1 % 4 * 16), '=', '=']
  | [b1, b2] =>
      [sixBitChar (b1 / 4), sixBitChar (b1 % 4 * 16 + b2 / 16),
       sixBitChar (b2 % 16 * 4), '=']
  | b1 :: b2 :: b3 :: rest =>
      sixBitChar (b1 / 4) :: sixBitChar (b1 % 4 * 16 + b2 / 16) ::
      sixBitChar (b2 % 16 * 4 + b3 / 64) :: sixBitChar (b3 % 64) ::
      encodeChunks rest

/-- Decode padded base64 characters back into bytes (model of `atob`;
`none` models a thrown `InvalidCharacterError`). -/
def decodeChunks : List Char → Option (List Nat)
  | [] => some []
  | c1 :: c2 :: c3 :: c4 :: rest =>
      if c3 = '=' ∧ c4 = '=' ∧ rest = [] then
        match b64index c1, b64index c2 with
        | some s1, some s2 => some [s1 * 4 + s2 / 16]
        | _, _ => none
      else if c4 = '=' ∧ rest = [] then
        match b64index c1, b64index c2, b64index c3 with
        | some s1, some s2, some s3 =>
            some [s1 * 4 + s2 / 16, s2 % 16 * 16 + s3 / 4]
        | _, _, _ => none
      else
        match b64index c1, b64index c2, b64index c3, b64index c4 with
        | some s1, some s2, some s3, some s4 =>
            (decodeChunks rest).map
              (fun bs =>
                (s1 * 4 + s2 / 16) :: (s2 % 16 * 16 + s3 / 4) ::
                (s3 % 4 * 64 + s4) :: bs)
        | _, _, _, _ => none
  | _ => none

/-- Model of the platform `btoa`: base64 of the code units, failing when some
code unit is outside the Latin-1 range. -/
def btoaM (s : String) : Option String :=
  if s.data.all (fun c => c.toNat ≤ 255) then
    some (String.mk (encodeChunks (s.data.map Char.toNat)))
  else
    none

/-- Model of the platform `atob`: decode base64 into a string of Latin-1
code units; `none` models a throw. -/
def atobM (s : String) : Option String :=
  (decodeChunks s.data).map (fun bs => String.mk (bs.map Char.ofNat))

/-- The forward URL-safe substitution of `encodeIdentifier`:
`'+' → '-'`, `'/' → '_'`. -/
def swapFwd (c : Char) : Char :=
  if c = '+' then '-' else if c = '/' then '_' else c

/-- The reverse substitution of `decodeIdentifier`: `'-' → '+'`, `'_' → '/'`. -/
def swapBack (c : Char) : Char :=
  if c = '-' then '+' else if c = '_' then '/' else c

/-- Drop the trailing run of `'='` characters (the `replace(/=+$/g, '')`). -/
def stripEq (l : List Char) : List Char :=
  (l.reverse.dropWhile (fun c => c = '=')).reverse

/-- `encodeIdentifier` (`vectorize.ts` 22–32): base64 of the value via `btoa`
(the available encoder in the Workers runtime), made URL-safe and stripped of
padding.  `none` models the `btoa` throw on non-Latin-1 input. -/
def encodeIdentifier (value : String) : Option String :=
  (btoaM value).map (fun base64 =>
    String.mk (stripEq (base64.data.map swapFwd)))

/-- `decodeIdentifier` (`vectorize.ts` 34–49): empty token decodes to `""`;
otherwise re-pad to a multiple of four, undo the URL-safe substitution and
`atob`; a decode failure is caught and yields `""`. -/
def decodeIdentifier (token : String) : String :=
  if token = "" then ""
  else
    match atobM (String.mk
        ((token.data ++
          List.replicate ((4 - token.length % 4) % 4) '=').map swapBack)) with
    | some s => s
    | none => ""

/-- `organizationNamespace` (`vectorize.ts` 223–225); `none` models the
propagated `btoa` throw. -/
def organizationNamespace (organisationId : String) : Option String :=
  (encodeIdentifier organisationId).map (fun e => "org:" ++ e)

/-- `personalNamespace` (`vectorize.ts` 227–229). -/
def personalNamespace (userId : String) : Option String :=
  (encodeIdentifier userId).map (fun e => "user:" ++ e)

/-- `teamNamespace` (`vectorize.ts` 231–233). -/
def teamNamespace (teamId : String) : Option String :=
  (encodeIdentifier teamId).map (fun e => "team:" ++ e)


theorem b64index_sixBitChar : ∀ s < 64, b64index (sixBitChar s) = some s := by decide

theorem sixBitChar_ne_eq : ∀ s < 64, sixBitChar s ≠ '=' := by decide

theorem swapFwd_sixBitChar_ne_eq : ∀ s < 64, swapFwd (sixBitChar s) ≠ '=' := by decide

theorem swapBack_swapFwd_sixBitChar : ∀ s < 64, swapBack (swapFwd (sixBitChar s)) = sixBitChar s := by
  decide

theorem decodeChunks_encodeChunks :
    ∀ bs : List Nat, (∀ b ∈ bs, b < 256) → decodeChunks (encodeChunks bs) = some bs := by
  intro bs
  induction bs using encodeChunks.induct with
  | case1 =>
      intro _; simp [encodeChunks, decodeChunks]
  | case2 b1 =>
      intro hb
      have h1 : b1 < 256 := hb b1 (by simp)
      simp only [encodeChunks, decodeChunks]
      rw [if_pos (by simp)]
      rw [b64index_sixBitChar _ (by omega), b64index_sixBitChar _ (by omega)]
      simp only [Option.some.injEq, List.cons.injEq, and_true]
      omega
  | case3 b1 b2 =>
      intro hb
      have h1 : b1 < 256 := hb b1 (by simp)
      have h2 : b2 < 256 := hb b2 (by simp)
      simp only [encodeChunks, decodeChunks]
      rw [if_neg (by
        intro hcon
        exact sixBitChar_ne_eq _ (by omega) hcon.1)]
      rw [if_pos (by simp)]
      rw [b64index_sixBitChar _ (by omega), b64index_sixBitChar _ (by omega),
        b64index_sixBitChar _ (by omega)]
      simp only [Option.some.injEq, List.cons.injEq, and_true]
      omega
  | case4 b1 b2 b3 rest ih =>
      intro hb
      have h1 : b1 < 256 := hb b1 (by simp)
      have h2 : b2 < 256 := hb b2 (by simp)
      have h3 : b3 < 256 := hb b3 (by simp)
      have hrest : ∀ b ∈ rest, b < 256 := fun b hbm => hb b (by simp [hbm])
      simp only [encodeChunks, decodeChunks]
      rw [if_neg (by
        intro hcon
        exact sixBitChar_ne_eq _ (by omega) hcon.1)]
      rw [if_neg (by
        intro hcon
        exact sixBitChar_ne_eq _ (by omega) hcon.1)]
      rw [b64index_sixBitChar _ (by omega), b64index_sixBitChar _ (by omega),
        b64index_sixBitChar _ (by omega), b64index_sixBitChar _ (by omega)]
      rw [ih hrest]
      simp only [Option.map_some', Option.some.injEq, List.cons.injEq, and_true]
      omega



/-- Every output of `encodeChunks` splits into a body of alphabet characters
followed by a trailing run of at most two `'='` pads, with total length a
multiple of four. -/
theorem encodeChunks_shape :
    ∀ bs : List Nat, (∀ b ∈ bs, b < 256) →
      ∃ body k, encodeChunks bs = body ++ List.replicate k '=' ∧ k ≤ 2 ∧
        (∀ c ∈ body, ∃ s, s < 64 ∧ c = sixBitChar s) ∧
        (body.length + k) % 4 = 0 ∧ (bs = [] ↔ body = []) := by
  intro bs
  induction bs using encodeChunks.induct with
  | case1 =>
      intro _
      exact ⟨[], 0, by simp [encodeChunks], by omega, by simp, by simp, by simp⟩
  | case2 b1 =>
      intro hb
      have h1 : b1 < 256 := hb b1 (by simp)
      refine ⟨[sixBitChar (b1 / 4), sixBitChar (b1 % 4 * 16)], 2, ?_, by omega, ?_, by simp, by simp⟩
      · simp [encodeChunks, List.replicate]
      · intro c hc
        simp only [List.mem_cons, List.not_mem_nil, or_false] at hc
        rcases hc with h | h
        · exact ⟨b1 / 4, by omega, by simp [h]⟩
        · exact ⟨b1 % 4 * 16, by omega, by simp [h]⟩
  | case3 b1 b2 =>
      intro hb
      have h1 : b1 < 256 := hb b1 (by simp)
      have h2 : b2 < 256 := hb b2 (by simp)
      refine ⟨[sixBitChar (b1 / 4), sixBitChar (b1 % 4 * 16 + b2 / 16),
        sixBitChar (b2 % 16 * 4)], 1, ?_, by omega, ?_, by simp, by simp⟩
      · simp [encodeChunks, List.replicate]
      · intro c hc
        simp only [List.mem_cons, List.not_mem_nil, or_false] at hc
        rcases hc with h | h | h
        · exact ⟨b1 / 4, by omega, by simp [h]⟩
        · exact ⟨b1 % 4 * 16 + b2 / 16, by omega, by simp [h]⟩
        · exact ⟨b2 % 16 * 4, by omega, by simp [h]⟩
  | case4 b1 b2 b3 rest ih =>
      intro hb
      have h1 : b1 < 256 := hb b1 (by simp)
      have h2 : b2 < 256 := hb b2 (by simp)
      have h3 : b3 < 256 := hb b3 (by simp)
      have hrest : ∀ b ∈ rest, b < 256 := fun b hbm => hb b (by simp [hbm])
      obtain ⟨body, k, heq, hk, hsix, hlen, hemp⟩ := ih hrest
      refine ⟨sixBitChar (b1 / 4) :: sixBitChar (b1 % 4 * 16 + b2 / 16) ::
        sixBitChar (b2 % 16 * 4 + b3 / 64) :: sixBitChar (b3 % 64) :: body, k,
        ?_, hk, ?_, ?_, by simp⟩
      · simp [encodeChunks, heq]
      · intro c hc
        simp only [List.mem_cons] at hc
        rcases hc with h | h | h | h | h
        · exact ⟨b1 / 4, by omega, by simp [h]⟩
        · exact ⟨b1 % 4 * 16 + b2 / 16, by omega, by simp [h]⟩
        · exact ⟨b2 % 16 * 4 + b3 / 64, by omega, by simp [h]⟩
        · exact ⟨b3 % 64, by omega, by simp [h]⟩
        · exact hsix c h
      · simp only [List.length_cons]
        omega



theorem dropWhile_replicate_append (p : Char → Bool) (a : Char) (hp : p a = true) :
    ∀ k (l : List Char), (List.replicate k a ++ l).dropWhile p = l.dropWhile p := by
  intro k
  induction k with
  | zero => simp
  | succ n ih => intro l; simp [List.replicate_succ, List.dropWhile_cons, hp, ih]

/-- Stripping the trailing `'='` run of a body-plus-padding recovers the body,
as long as the body itself contains no `'='`. -/
theorem stripEq_append (body : List Char) (k : Nat) (hne : ∀ c ∈ body, c ≠ '=') :
    stripEq (body ++ List.replicate k '=') = body := by
  unfold stripEq
  rw [List.reverse_append, List.reverse_replicate,
    dropWhile_replicate_append _ _ (by simp) k body.reverse]
  have : body.reverse.dropWhile (fun c => c = '=') = body.reverse := by
    cases hrev : body.reverse with
    | nil => simp
    | cons h t =>
        have hmem : h ∈ body := by
          have : h ∈ body.reverse := by rw [hrev]; simp
          simpa using this
        rw [List.dropWhile_cons]
        simp [hne h hmem]
  rw [this, List.reverse_reverse]

/-- C7 core: decoding any token produced by `encodeIdentifier` recovers the
original identifier. -/
theorem decode_encode (x t : String) (h : encodeIdentifier x = some t) :
    decodeIdentifier t = x := by
  unfold encodeIdentifier at h
  unfold btoaM at h
  by_cases hall : x.data.all (fun c => c.toNat ≤ 255)
  swap
  · rw [if_neg hall] at h; simp at h
  rw [if_pos hall] at h
  simp only [Option.map_some', Option.some.injEq] at h
  set bs : List Nat := x.data.map Char.toNat with hbs
  have hUB : ∀ b ∈ bs, b < 256 := by
    intro b hbm
    rw [hbs] at hbm
    simp only [List.mem_map] at hbm
    obtain ⟨c, hc, rfl⟩ := hbm
    have := List.all_eq_true.mp hall c hc
    simp only [decide_eq_true_eq] at this
    omega
  obtain ⟨body, k, heq, hk, hsix, hlen, hemp⟩ := encodeChunks_shape bs hUB
  by_cases hx : x.data = []
  · -- empty identifier: token is empty and decodes to ""
    have hxe : x = "" := by
      cases x with
      | mk d =>
        cases hx
        rfl
    subst hxe
    have ht : t = "" := by rw [← h]; rfl
    subst ht
    rfl
  · have hbody : body ≠ [] := fun hb => hx (by
      have : bs = [] := hemp.mpr hb
      rw [hbs] at this
      simpa using this)
    have hbodyNe : ∀ c ∈ body.map swapFwd, c ≠ '=' := by
      intro c hc
      simp only [List.mem_map] at hc
      obtain ⟨c0, hc0, rfl⟩ := hc
      obtain ⟨s, hs, rfl⟩ := hsix c0 hc0
      exact swapFwd_sixBitChar_ne_eq s hs
    have htd : t.data = body.map swapFwd := by
      rw [← h]
      show stripEq ((String.mk (encodeChunks bs)).data.map swapFwd) = _
      have : (String.mk (encodeChunks bs)).data = encodeChunks bs := rfl
      rw [this, heq, List.map_append, List.map_replicate]
      have : swapFwd '=' = '=' := rfl
      rw [this, stripEq_append _ _ hbodyNe]
    have htne : t ≠ "" := by
      intro hteq
      subst hteq
      have : body.map swapFwd = [] := by rw [← htd]
      exact hbody (by simpa using this)
    -- now evaluate decodeIdentifier
    unfold decodeIdentifier
    rw [if_neg htne]
    have hlenEq : t.length = body.length := by
      show t.data.length = _
      rw [htd]; simp
    have hkEq : (4 - t.length % 4) % 4 = k := by
      rw [hlenEq]; omega
    have hmapBack : (body.map swapFwd ++ List.replicate k '=').map swapBack
        = encodeChunks bs := by
      rw [List.map_append, List.map_replicate, List.map_map]
      have h1 : body.map (swapBack ∘ swapFwd) = body := by
        rw [List.map_congr_left (g := id) ?_, List.map_id]
        intro c hc
        obtain ⟨s, hs, rfl⟩ := hsix c hc
        exact swapBack_swapFwd_sixBitChar s hs
      have h2 : swapBack '=' = '=' := rfl
      rw [h1, h2, heq]
    rw [hkEq, htd, hmapBack]
    unfold atobM
    have : (String.mk (encodeChunks bs)).data = encodeChunks bs := rfl
    rw [this, decodeChunks_encodeChunks bs hUB]
    simp only [Option.map_some']
    have : bs.map Char.ofNat = x.data := by
      rw [hbs, List.map_map, List.map_congr_left (g := id) ?_, List.map_id]
      intro c _
      exact Char.ofNat_toNat c
    rw [this]

/-- C7: decoding the identifier portion of the namespace token produced for an
organization, team, or user identifier returns the identifier:
`decodeIdentifier (encodeIdentifier x) = x` whenever the encoder produces a
token, and the tokens of `organizationNamespace`, `personalNamespace` and
`teamNamespace` carry exactly that encoded identifier portion. -/
theorem namespace_token_roundtrip (x t : String)
    (h : encodeIdentifier x = some t) :
    decodeIdentifier t = x ∧
    organizationNamespace x = some ("org:" ++ t) ∧
    personalNamespace x = some ("user:" ++ t) ∧
    teamNamespace x = some ("team:" ++ t) := by
  refine ⟨decode_encode x t h, ?_, ?_, ?_⟩ <;>
    simp [organizationNamespace, personalNamespace, teamNamespace, h]

/-- Witness for C7 at the concrete identifier `"acme"`. -/
theorem namespace_token_roundtrip_witness :
    decodeIdentifier "YWNtZQ" = "acme" ∧
    organizationNamespace "acme" = some ("org:" ++ "YWNtZQ") ∧
    personalNamespace "acme" = some ("user:" ++ "YWNtZQ") ∧
    teamNamespace "acme" = some ("team:" ++ "YWNtZQ") :=
  namespace_token_roundtrip "acme" "YWNtZQ" (by decide)



/-- C9: with `btoa` as the available encoder, `encodeIdentifier` throws on any
identifier containing a code point above U+00FF, and so do the namespace
builders layered on it: no namespace token is produced. -/
theorem encodeIdentifier_latin1_only (x : String) (c : Char)
    (hc : c ∈ x.data) (hgt : 255 < c.toNat) :
    encodeIdentifier x = none ∧ organizationNamespace x = none ∧
    personalNamespace x = none ∧ teamNamespace x = none := by
  have henc : encodeIdentifier x = none := by
    unfold encodeIdentifier btoaM
    rw [if_neg ?_]
    · rfl
    · intro hall
      have := List.all_eq_true.mp hall c hc
      simp only [decide_eq_true_eq] at this
      omega
  exact ⟨henc, by simp [organizationNamespace, henc],
    by simp [personalNamespace, henc], by simp [teamNamespace, henc]⟩

/-- Witness for C9 at the concrete identifier `"team-€"` (contains U+20AC). -/
theorem encodeIdentifier_latin1_only_witness :
    encodeIdentifier "team-€" = none ∧ organizationNamespace "team-€" = none ∧
    personalNamespace "team-€" = none ∧ teamNamespace "team-€" = none :=
  encodeIdentifier_latin1_only "team-€" '€' (by decide) (by decide)

/-- `VectorMetadata` (`vectorize.ts` 4–16).  `teamId?: string | null` is
modelled as `Option String` (absent and `null` collapsed to `none`). -/
structure VectorMetadata where
  chunkId : String
  fileId : String
  folderId : String
  folderName : String
  fileName : String
  startLine : Nat
  endLine : Nat
  visibility : Visibility
  ownerId : String
  organizationId : String
  teamId : Option String
deriving DecidableEq, Repr

/-- `VectorMatch` (`vectorize.ts` 18–20): metadata plus a similarity score
(floating point in the source, modelled as `Rat`). -/
structure VectorMatch extends VectorMetadata where
  score : Rat
deriving DecidableEq, Repr

/-- `partitionForVisibility` (`vectorize.ts` 51–62).  `!metadata.teamId` is
true for `null`/`undefined` and for the empty string. -/
def partitionForVisibility (metadata : VectorMetadata) : Option String :=
  if metadata.visibility = .organization then
    organizationNamespace metadata.organizationId
  else if metadata.visibility = .team then
    match metadata.teamId with
    | none => some "team:unknown"
    | some tid => if tid = "" then some "team:unknown" else teamNamespace tid
  else
    personalNamespace metadata.ownerId

/-- The metadata filter derived from a namespace token
(`filterFromNamespace`, `vectorize.ts` 142–153).  The source returns a plain
object; we represent the four possible shapes (`Object.keys(filter).length`
is zero exactly for `empty`). -/
inductive NsFilter where
  | orgF (organizationId : String)
  | teamF (teamId : String)
  | userF (ownerId : String)
  | empty
deriving DecidableEq, Repr

/-- `s.startsWith(p)`, computed on the code-point list so that it evaluates
inside the kernel. -/
def startsWithM (s p : String) : Bool :=
  decide (s.data.take p.data.length = p.data)

/-- `s.slice(n)`: drop the first `n` code points. -/
def dropM (s : String) (n : Nat) : String := String.mk (s.data.drop n)

/-- `filterFromNamespace` (`vectorize.ts` 142–153). -/
def filterFromNamespace (ns : String) : NsFilter :=
  if startsWithM ns "org:" then .orgF (decodeIdentifier (dropM ns 4))
  else if startsWithM ns "team:" then .teamF (decodeIdentifier (dropM ns 5))
  else if startsWithM ns "user:" then .userF (decodeIdentifier (dropM ns 5))
  else .empty

/-- `Partial<VectorMetadata>` as carried on a raw index match.  Fields that
are absent (or `null`, where the source only distinguishes them through `??`)
are `none`. -/
structure RawMetadata where
  chunkId : Option String := none
  fileId : Option String := none
  folderId : Option String := none
  folderName : Option String := none
  fileName : Option String := none
  startLine : Option Nat := none
  endLine : Option Nat := none
  visibility : Option Visibility := none
  ownerId : Option String := none
  organizationId : Option String := none
  teamId : Option String := none
deriving DecidableEq, Repr

/-- A raw match object as returned by the index binding's `query`. -/
structure RawVectorResult where
  id : Option String := none
  chunkId : Option String := none
  score : Option Rat := none
  metadata : Option RawMetadata := none
deriving DecidableEq, Repr

/-- The `buildMatch` normalizer inside `queryNamespace` (`vectorize.ts`
157–185).  A `none` element models a falsy `raw`.  The chunk id is taken
from `metadata?.chunkId ?? raw.chunkId ?? raw.id` (`??` does not skip the
empty string), and `if (!chunkId)` then discards both a missing and an
empty-string chunk id (the `console.warn` path).  Where the source can
leave a field `undefined` (e.g. `namespaceFilter.ownerId` when the filter
has no such key), the model uses `""`/`none`, which is how every consumer
reads it. -/
def buildMatch (ns : String) (raw : Option RawVectorResult) : Option VectorMatch :=
  match raw with
  | none => none
  | some raw =>
    let metadata := raw.metadata
    match ((metadata.bind (·.chunkId)).orElse fun _ =>
        raw.chunkId.orElse fun _ => raw.id) with
    | none => none
    | some chunkId =>
      if chunkId = "" then none
      else
      let namespaceFilter := filterFromNamespace ns
      let visibility : Visibility := (metadata.bind (·.visibility)).getD
        (match namespaceFilter with
         | .orgF _ => .organization
         | .teamF _ => .team
         | .userF _ => .personal
         | .empty => .personal)
      let ownerId := (metadata.bind (·.ownerId)).getD
        (if visibility = .personal then
          (match namespaceFilter with | .userF o => o | _ => "")
         else "")
      let organizationId := (metadata.bind (·.organizationId)).getD
        (if visibility = .organization then
          (match namespaceFilter with | .orgF o => o | _ => "")
         else "")
      let teamId := (metadata.bind (·.teamId)).orElse fun _ =>
        (if visibility = .team then
          (match namespaceFilter with | .teamF t => some t | _ => none)
         else none)
      some {
        chunkId := chunkId
        fileId := (metadata.bind (·.fileId)).getD ""
        folderId := (metadata.bind (·.folderId)).getD ""
        folderName := (metadata.bind (·.folderName)).getD ""
        fileName := (metadata.bind (·.fileName)).getD ""
        startLine := (metadata.bind (·.startLine)).getD 0
        endLine := (metadata.bind (·.endLine)).getD 0
        visibility := visibility
        ownerId := ownerId
        organizationId := organizationId
        teamId := teamId
        score := raw.score.getD 0
      }

/-- `(response?.matches ?? []).map(buildMatch).filter(Boolean)`. -/
def buildMatches (ns : String) (raws : List (Option RawVectorResult)) :
    List VectorMatch :=
  raws.filterMap (buildMatch ns)

/-- A V2 ("global with metadata filter") vector index binding, reduced to the
one observable `queryNamespace` uses: the match list returned for a query,
as a function of the options' metadata filter.  The query vector, `topK`,
`returnValues` and `returnMetadata` are identical on both calls the source
can make, so they are not parameters of the model. -/
structure V2Binding where
  respond : Option NsFilter → List (Option RawVectorResult)

/-- The V2 branch of `queryNamespace` (`vectorize.ts` 187–211): query with
the filter derived from the namespace token when it is non-empty; if that
yields no usable matches and the filter was non-empty, retry exactly once
with no filter.  Also returns the log of issued queries (their filters). -/
def queryNamespaceV2 (binding : V2Binding) (ns : String) :
    List VectorMatch × List (Option NsFilter) :=
  let filter := filterFromNamespace ns
  let firstOpts : Option NsFilter := if filter ≠ .empty then some filter else none
  let mtchs := buildMatches ns (binding.respond firstOpts)
  if mtchs = [] ∧ filter ≠ .empty then
    (buildMatches ns (binding.respond none), [firstOpts, none])
  else
    (mtchs, [firstOpts])

/-- C3: on a V2 index, a filtered query with zero usable matches and a
non-empty namespace filter is retried exactly once with no filter and the
unfiltered matches are returned; a filtered query with at least one match
is never retried. -/
theorem query_retry_policy (binding : V2Binding) (ns : String)
    (hf : filterFromNamespace ns ≠ .empty) :
    (buildMatches ns (binding.respond (some (filterFromNamespace ns))) = [] →
      queryNamespaceV2 binding ns =
        (buildMatches ns (binding.respond none),
         [some (filterFromNamespace ns), none])) ∧
    (buildMatches ns (binding.respond (some (filterFromNamespace ns))) ≠ [] →
      queryNamespaceV2 binding ns =
        (buildMatches ns (binding.respond (some (filterFromNamespace ns))),
         [some (filterFromNamespace ns)])) := by
  have hopts : (if filterFromNamespace ns ≠ NsFilter.empty
      then some (filterFromNamespace ns) else none)
      = some (filterFromNamespace ns) := if_pos hf
  constructor
  · intro hempty
    simp only [queryNamespaceV2, hopts]
    rw [if_pos ⟨hempty, hf⟩]
  · intro hne
    simp only [queryNamespaceV2, hopts]
    rw [if_neg (fun hcon => hne hcon.1)]



/-- A concrete V2 binding: the filtered query returns nothing, the
unfiltered query returns one raw match with id `c1`. -/
def sampleBinding : V2Binding where
  respond opts :=
    match opts with
    | some _ => []
    | none => [some { id := some "c1", score := some (9 / 10) }]

/-- Witness for C3: against `sampleBinding` and the personal namespace of
`"bob"`, the filtered query is empty, so exactly one unfiltered retry is
issued and its matches are returned. -/
theorem query_retry_policy_witness :
    queryNamespaceV2 sampleBinding "user:Ym9i" =
      (buildMatches "user:Ym9i" (sampleBinding.respond none),
       [some (filterFromNamespace "user:Ym9i"), none]) :=
  (query_retry_policy sampleBinding "user:Ym9i" (by decide)).1 (by decide)



/-- Chat scope (`schemas.ts` / `session.ts`): which namespaces to search. -/
inductive ChatScope where
  | all
  | org
  | personal
  | team
deriving DecidableEq, Repr

/-- The namespace-resolution block of `handleChat` (`session.ts` 159–168):
push the organization namespace for scope `all`/`org`, the caller's personal
namespace for `all`/`personal`, and one namespace per active team membership
for `all`/`team` when the membership list is non-empty.  `none` models a
propagated `btoa` throw from the encoders. -/
def resolveNamespaces (scope : ChatScope) (organisationId userId : String)
    (teamIds : List String) : Option (List String) := do
  let orgPart ←
    if scope = .all ∨ scope = .org then
      (organizationNamespace organisationId).map (fun n => [n])
    else
      some []
  let personalPart ←
    if scope = .all ∨ scope = .personal then
      (personalNamespace userId).map (fun n => [n])
    else
      some []
  let teamPart ←
    if (scope = .all ∨ scope = .team) ∧ teamIds ≠ [] then
      teamIds.mapM teamNamespace
    else
      some []
  return orgPart ++ personalPart ++ teamPart

/-- Metadata of a chunk of a personal-visibility file owned by `"bob"` —
the kind of file a `FilePermission` row could grant another user access to. -/
def bobChunkMeta : VectorMetadata where
  chunkId := "chunk-b1"
  fileId := "file-b"
  folderId := "folder-b"
  folderName := "Bob files"
  fileName := "notes.txt"
  startLine := 1
  endLine := 4
  visibility := .personal
  ownerId := "bob"
  organizationId := "org-1"
  teamId := none

/-- Counterexample for C4: retrieval with scope `personal` for caller
`"alice"` queries only Alice's own namespace.  A personal file owned by
`"bob"` — even one Alice holds an explicit `FilePermission` grant for —
lives in Bob's namespace (`partitionForVisibility`), which is not queried,
and the V2 metadata filter of the queried namespace selects `ownerId =
"alice"`, not `"bob"`.  No code path of `handleChat` consults
`file_permissions`: the claimed admission mechanism does not exist.  (A
non-owned chunk can still surface through the V2 zero-match unfiltered
retry of `queryNamespaceV2`, but that fallback ignores grants entirely —
it broadens to everything, granted or not.) -/
theorem personal_scope_ignores_grants_counterexample :
    resolveNamespaces .personal "org-1" "alice" [] = some ["user:YWxpY2U"] ∧
    partitionForVisibility bobChunkMeta = some "user:Ym9i" ∧
    "user:Ym9i" ∉ ["user:YWxpY2U"] ∧
    filterFromNamespace "user:YWxpY2U" = .userF "alice" := by
  refine ⟨by decide, by decide, by decide, by decide⟩

/-- C4 as amended: with scope `personal`, `handleChat` resolves the
namespaces to query as exactly the caller's own personal namespace;
`FilePermission` grants play no part in namespace resolution, and
retrieval never reads them (whether any non-owned content surfaces is
governed solely by the index's filter/retry mechanics, independent of
grants). -/
theorem personal_scope_queries_only_caller (organisationId userId : String)
    (teamIds : List String) :
    resolveNamespaces .personal organisationId userId teamIds =
      (personalNamespace userId).map (fun n => [n]) := by
  cases h : personalNamespace userId <;>
    simp [resolveNamespaces, h]

/-! ## The retrieval merge of `handleChat` (`session.ts` 194–205)

`merged` is a JavaScript `Map` keyed by chunk id; `Map.set` keeps insertion
order for existing keys and appends new keys, which an association list
models exactly.  `Array.sort` with the comparator `(a, b) => b.score -
a.score` yields a permutation sorted by descending score; we model it with
an insertion sort under the corresponding relation. -/

/-- One `forEach` step over `results.flat()`: keep the best score per chunk
id (`match.score ?? 0` is already total on `VectorMatch`). -/
def mergeStep (acc : List (Rat × VectorMatch)) (nm : VectorMatch) :
    List (Rat × VectorMatch) :=
  match acc.find? (fun e => e.2.chunkId == nm.chunkId) with
  | none => acc ++ [(nm.score, nm)]
  | some prev =>
      if prev.1 < nm.score then
        acc.map (fun e =>
          if e.2.chunkId == nm.chunkId then (nm.score, nm) else e)
      else acc

/-- The full merge over all namespace results. -/
def mergeAll (results : List (List VectorMatch)) : List (Rat × VectorMatch) :=
  results.flatten.foldl mergeStep []

/-- `b.score - a.score` comparator as a relation: descending by score. -/
def scoreGe (a b : Rat × VectorMatch) : Prop := b.1 ≤ a.1

instance : DecidableRel scoreGe :=
  fun a b => inferInstanceAs (Decidable (b.1 ≤ a.1))

instance : IsTotal (Rat × VectorMatch) scoreGe := ⟨fun a b => le_total b.1 a.1⟩

instance : IsTrans (Rat × VectorMatch) scoreGe :=
  ⟨fun _ _ _ h1 h2 => le_trans h2 h1⟩

/-- `Array.from(merged.values()).sort((a, b) => b.score - a.score)`. -/
def sortDesc (l : List (Rat × VectorMatch)) : List (Rat × VectorMatch) :=
  List.insertionSort scoreGe l

/-- `topMatches` (`session.ts` 203–205): merge, sort descending, truncate. -/
def topMatches (results : List (List VectorMatch)) (topK : Nat) :
    List (Rat × VectorMatch) :=
  (sortDesc (mergeAll results)).take topK

/-- Invariant carried by the merge fold: entries pair each kept match with
its own score, chunk ids are unique, and every processed match is dominated
by the entry holding its chunk id. -/
def MergeInv (processed : List VectorMatch) (acc : List (Rat × VectorMatch)) :
    Prop :=
  (∀ e ∈ acc, e.1 = e.2.score ∧ e.2 ∈ processed) ∧
  (acc.map (fun e => e.2.chunkId)).Nodup ∧
  (∀ m ∈ processed, ∃ e ∈ acc, e.2.chunkId = m.chunkId ∧ m.score ≤ e.1)

theorem mergeStep_inv {processed acc} (nm : VectorMatch)
    (h : MergeInv processed acc) :
    MergeInv (processed ++ [nm]) (mergeStep acc nm) := by
  obtain ⟨hown, hnd, hdom⟩ := h
  unfold mergeStep
  cases hfind : acc.find? (fun e => e.2.chunkId == nm.chunkId) with
  | none =>
      have hnone : ∀ e ∈ acc, e.2.chunkId ≠ nm.chunkId := by
        intro e he heq
        have := List.find?_eq_none.mp hfind e he
        simp [heq] at this
      refine ⟨?_, ?_, ?_⟩
      · intro e he
        rcases List.mem_append.mp he with he | he
        · exact ⟨(hown e he).1, List.mem_append.mpr (Or.inl (hown e he).2)⟩
        · simp only [List.mem_singleton] at he
          subst he
          exact ⟨rfl, List.mem_append.mpr (Or.inr (by simp))⟩
      · rw [List.map_append]
        simp only [List.map_cons, List.map_nil]
        rw [List.nodup_append]
        refine ⟨hnd, List.nodup_singleton _, ?_⟩
        intro a ha hb
        simp only [List.mem_singleton] at hb
        subst hb
        simp only [List.mem_map] at ha
        obtain ⟨e, he, heq⟩ := ha
        exact hnone e he heq
      · intro m hm
        rcases List.mem_append.mp hm with hm | hm
        · obtain ⟨e, he, h1, h2⟩ := hdom m hm
          exact ⟨e, List.mem_append.mpr (Or.inl he), h1, h2⟩
        · simp only [List.mem_singleton] at hm
          rw [hm]
          exact ⟨(nm.score, nm), List.mem_append.mpr (Or.inr (by simp)), rfl,
            le_refl _⟩
  | some prev =>
      dsimp only
      have hprevmem : prev ∈ acc := List.mem_of_find?_eq_some hfind
      have hprevid : prev.2.chunkId = nm.chunkId := by
        have := List.find?_some hfind
        simpa using this
      have huniq : ∀ e ∈ acc, e.2.chunkId = nm.chunkId → e = prev := by
        intro e he heq
        exact List.inj_on_of_nodup_map hnd he hprevmem (by rw [heq, hprevid])
      by_cases hlt : prev.1 < nm.score
      · rw [if_pos hlt]
        refine ⟨?_, ?_, ?_⟩
        · intro e he
          simp only [List.mem_map] at he
          obtain ⟨e0, he0, heq⟩ := he
          by_cases hid : e0.2.chunkId = nm.chunkId
          · simp only [hid, beq_self_eq_true, if_true] at heq
            subst heq
            exact ⟨rfl, List.mem_append.mpr (Or.inr (by simp))⟩
          · simp only [beq_iff_eq, hid, if_false] at heq
            subst heq
            exact ⟨(hown e0 he0).1, List.mem_append.mpr (Or.inl (hown e0 he0).2)⟩
        · have hsame : (acc.map (fun e =>
              if e.2.chunkId == nm.chunkId then (nm.score, nm) else e)).map
                (fun e => e.2.chunkId) = acc.map (fun e => e.2.chunkId) := by
            rw [List.map_map]
            apply List.map_congr_left
            intro e _
            by_cases hid : e.2.chunkId = nm.chunkId
            · simp [hid]
            · simp [hid]
          rw [hsame]
          exact hnd
        · intro m hm
          rcases List.mem_append.mp hm with hm | hm
          · obtain ⟨e, he, h1, h2⟩ := hdom m hm
            by_cases hid : e.2.chunkId = nm.chunkId
            · refine ⟨(nm.score, nm), ?_, by rw [← h1, hid], ?_⟩
              · simp only [List.mem_map]
                exact ⟨e, he, by simp [hid]⟩
              · have hee : e = prev := huniq e he hid
                exact le_of_lt (lt_of_le_of_lt (hee ▸ h2) hlt)
            · refine ⟨e, ?_, h1, h2⟩
              simp only [List.mem_map]
              exact ⟨e, he, by simp [hid]⟩
          · simp only [List.mem_singleton] at hm
            rw [hm]
            refine ⟨(nm.score, nm), ?_, rfl, le_refl _⟩
            simp only [List.mem_map]
            exact ⟨prev, hprevmem, by simp [hprevid]⟩
      · rw [if_neg hlt]
        refine ⟨fun e he => ⟨(hown e he).1,
          List.mem_append.mpr (Or.inl (hown e he).2)⟩, hnd, ?_⟩
        intro m hm
        rcases List.mem_append.mp hm with hm | hm
        · exact hdom m hm
        · simp only [List.mem_singleton] at hm
          rw [hm]
          exact ⟨prev, hprevmem, hprevid, le_of_not_lt hlt⟩

theorem foldl_mergeStep_inv :
    ∀ (l : List VectorMatch) (processed : List VectorMatch)
      (acc : List (Rat × VectorMatch)), MergeInv processed acc →
      MergeInv (processed ++ l) (l.foldl mergeStep acc) := by
  intro l
  induction l with
  | nil => intro processed acc h; simpa using h
  | cons x xs ih =>
      intro processed acc h
      have := ih (processed ++ [x]) (mergeStep acc x) (mergeStep_inv x h)
      simpa using this

theorem mergeAll_inv (results : List (List VectorMatch)) :
    MergeInv results.flatten (mergeAll results) := by
  have := foldl_mergeStep_inv results.flatten [] [] ⟨by simp, by simp, by simp⟩
  simpa [mergeAll] using this



/-- C2: the merged retrieval result keeps at most one entry per chunk id,
each entry carries the maximum score observed for that chunk id across all
namespace results (and is one of the input matches paired with its own
score), the list is sorted by descending score, and it is truncated to at
most `topK` entries. -/
theorem chat_merge_semantics (results : List (List VectorMatch)) (topK : Nat) :
    (topMatches results topK).length ≤ topK ∧
    List.Pairwise (fun a b : Rat × VectorMatch => b.1 ≤ a.1)
      (topMatches results topK) ∧
    ((topMatches results topK).map (fun e => e.2.chunkId)).Nodup ∧
    ∀ e ∈ topMatches results topK, e.1 = e.2.score ∧ e.2 ∈ results.flatten ∧
      ∀ m ∈ results.flatten, m.chunkId = e.2.chunkId → m.score ≤ e.1 := by
  obtain ⟨hown, hnd, hdom⟩ := mergeAll_inv results
  have hperm : List.Perm (sortDesc (mergeAll results)) (mergeAll results) :=
    List.perm_insertionSort _ _
  have hsorted : List.Pairwise scoreGe (sortDesc (mergeAll results)) :=
    List.sorted_insertionSort _ _
  have hsub : List.Sublist (topMatches results topK)
      (sortDesc (mergeAll results)) := List.take_sublist _ _
  refine ⟨List.length_take_le _ _, ?_, ?_, ?_⟩
  · exact List.Pairwise.sublist hsub hsorted
  · have hndSorted : ((sortDesc (mergeAll results)).map
        (fun e => e.2.chunkId)).Nodup :=
      (List.Perm.nodup_iff (List.Perm.map _ hperm)).mpr hnd
    exact List.Nodup.sublist (List.Sublist.map _ hsub) hndSorted
  · intro e he
    have hemem : e ∈ mergeAll results :=
      hperm.mem_iff.mp (hsub.mem he)
    refine ⟨(hown e hemem).1, (hown e hemem).2, ?_⟩
    intro m hm hid
    obtain ⟨e', he', hid', hle⟩ := hdom m hm
    have : e' = e := List.inj_on_of_nodup_map hnd he' hemem (by rw [hid', hid])
    rwa [this] at hle

/-! ## Ingestion (`ingestion.ts` 122–230, with `db.ts` and `vectorize.ts`)

State of the two stores the replace protocol touches: the relational
`chunks` table and the vector index (entries keyed by vector id; deletion on
a V2 binding is `remove(chunkIds)` — global deletion by id).  `chunkText`
segments are parameters: the claims are relative to whatever segment list
the splitter produced from the latest text. -/

/-- One row of the `chunks` table, as written by `insertChunk`. -/
structure ChunkRow where
  id : String
  file_id : String
  folder_id : String
  owner_id : String
  visibility : Visibility
  chunk_index : Nat
  start_line : Nat
  end_line : Nat
  content : String
deriving DecidableEq, Repr

/-- One entry of the vector index, as written by `upsertChunkVector`. -/
structure VecEntry where
  id : String
  embedding : List Rat
  metadata : VectorMetadata
deriving DecidableEq, Repr

/-- The relational chunk table plus the vector index, with the per-file
status map (`updateFileStatus`). -/
structure Store where
  chunks : List ChunkRow
  vectors : List VecEntry
  status : List (String × String)
deriving DecidableEq, Repr

/-- One segment produced by `chunkText` (`chunk.ts`, consumed at
`ingestion.ts` 128). -/
structure Segment where
  content : String
  startLine : Nat
  endLine : Nat
deriving DecidableEq, Repr

/-- The fields of the file record that the ingestion tail reads. -/
structure FileInfo where
  id : String
  folder_id : String
  folder_name : String
  file_name : String
  owner_id : String
  visibility : Visibility
deriving DecidableEq, Repr

/-- `deleteChunksForFile` (`db.ts`): select the ids of the file's chunk
rows, delete those rows, and return the ids. -/
def deleteChunksForFile (st : Store) (fileId : String) :
    List String × Store :=
  ((st.chunks.filter (fun c => c.file_id == fileId)).map (fun c => c.id),
   { st with chunks := st.chunks.filter (fun c => !(c.file_id == fileId)) })

/-- `deleteChunkVectors` (`vectorize.ts` 99–131) on a V2 binding:
`binding.remove(chunkIds)` deletes globally by vector id; an empty id list
is a no-op.  The V1 (namespaced) branch of the same function — together
with the mis-bound four-argument call `ingestion.ts` line 167 makes to it —
is embedded separately below (`v1Delete`, `v1DeleteChunkVectorsStale`). -/
def deleteChunkVectors (st : Store) (chunkIds : List String) : Store :=
  if chunkIds = [] then st
  else { st with vectors := st.vectors.filter (fun v => !(chunkIds.contains v.id)) }

/-- `insertChunk` (`db.ts`): append one chunk row. -/
def insertChunk (st : Store) (row : ChunkRow) : Store :=
  { st with chunks := st.chunks ++ [row] }

/-- `upsertChunkVector` (`vectorize.ts` 79–94) on a V2 binding:
`binding.upsert([...])` replaces any entry with the same id. -/
def upsertChunkVector (st : Store) (chunkId : String) (embedding : List Rat)
    (metadata : VectorMetadata) : Store :=
  { st with vectors := st.vectors.filter (fun v => !(v.id == chunkId)) ++
      [{ id := chunkId, embedding := embedding, metadata := metadata }] }

/-- `updateFileStatus` (`db.ts`). -/
def updateFileStatus (st : Store) (fileId status : String) : Store :=
  { st with status := (st.status.filter (fun p => !(p.1 == fileId))) ++
      [(fileId, status)] }

/-- The per-index loop body of `ingestFileById` (`ingestion.ts` 175–219):
insert the chunk row, then upsert its vector with denormalized metadata.
The fresh `crypto.randomUUID()` values are supplied as `newIds`. -/
def insertLoop (file : FileInfo) :
    List (String × Segment × List Rat) → Nat → Store → Store
  | [], _, st => st
  | (chunkId, seg, emb) :: rest, index, st =>
      let st1 := insertChunk st {
        id := chunkId
        file_id := file.id
        folder_id := file.folder_id
        owner_id := file.owner_id
        visibility := file.visibility
        chunk_index := index
        start_line := seg.startLine
        end_line := seg.endLine
        content := seg.content
      }
      let st2 := upsertChunkVector st1 chunkId emb {
        chunkId := chunkId
        fileId := file.id
        folderId := file.folder_id
        folderName := file.folder_name
        fileName := file.file_name
        startLine := seg.startLine
        endLine := seg.endLine
        visibility := file.visibility
        ownerId := file.owner_id
        organizationId := ""
        teamId := none
      }
      insertLoop file rest (index + 1) st2

/-- Errors of the modelled ingestion tail (`HTTPException`s thrown after the
text is available). -/
inductive IngestErr where
  | noContent
  | countMismatch
deriving DecidableEq, Repr

/-- The tail of `ingestFileById` (`ingestion.ts` 128–229) from segmentation
onward: reject zero segments, reject an embedding count differing from the
segment count, then run the replace protocol — delete the file's chunk rows,
delete their vector entries, insert the new generation, mark the file ready.
Returns the store at the point of return or throw, and the chunk count. -/
def ingestReplace (st : Store) (file : FileInfo) (segs : List Segment)
    (embeddings : List (List Rat)) (newIds : List String) :
    Store × Except IngestErr Nat :=
  if segs.length = 0 then
    (st, .error .noContent)
  else if embeddings.length ≠ segs.length then
    (st, .error .countMismatch)
  else
    let (existing, st1) := deleteChunksForFile st file.id
    let st2 := if existing ≠ [] then deleteChunkVectors st1 existing else st1
    let st3 := insertLoop file (newIds.zip (segs.zip embeddings)) 0 st2
    let st4 := updateFileStatus st3 file.id "ready"
    (st4, .ok segs.length)


/-- The chunk rows the insert loop produces, in order. -/
def mkRows (file : FileInfo) :
    List (String × Segment × List Rat) → Nat → List ChunkRow
  | [], _ => []
  | (chunkId, seg, _) :: rest, index =>
      { id := chunkId
        file_id := file.id
        folder_id := file.folder_id
        owner_id := file.owner_id
        visibility := file.visibility
        chunk_index := index
        start_line := seg.startLine
        end_line := seg.endLine
        content := seg.content } :: mkRows file rest (index + 1)

/-- The vector entries the insert loop produces, in order. -/
def mkVecs (file : FileInfo) :
    List (String × Segment × List Rat) → List VecEntry
  | [] => []
  | (chunkId, seg, emb) :: rest =>
      { id := chunkId
        embedding := emb
        metadata := {
          chunkId := chunkId
          fileId := file.id
          folderId := file.folder_id
          folderName := file.folder_name
          fileName := file.file_name
          startLine := seg.startLine
          endLine := seg.endLine
          visibility := file.visibility
          ownerId := file.owner_id
          organizationId := ""
          teamId := none } } :: mkVecs file rest

theorem mkRows_length (file : FileInfo) :
    ∀ L i, (mkRows file L i).length = L.length := by
  intro L
  induction L with
  | nil => intro i; rfl
  | cons p rest ih =>
      intro i
      obtain ⟨cid, seg, emb⟩ := p
      simp [mkRows, ih]

theorem mkRows_mem (file : FileInfo) :
    ∀ L i, ∀ c ∈ mkRows file L i,
      c.file_id = file.id ∧ c.id ∈ L.map (fun p => p.1) := by
  intro L
  induction L with
  | nil => intro i c hc; cases hc
  | cons p rest ih =>
      intro i c hc
      obtain ⟨cid, seg, emb⟩ := p
      simp only [mkRows] at hc
      rcases List.mem_cons.mp hc with hc | hc
      · subst hc
        exact ⟨rfl, by simp⟩
      · obtain ⟨h1, h2⟩ := ih (i + 1) c hc
        exact ⟨h1, by simp [h2]⟩

theorem mkVecs_length (file : FileInfo) :
    ∀ L, (mkVecs file L).length = L.length := by
  intro L
  induction L with
  | nil => rfl
  | cons p rest ih =>
      obtain ⟨cid, seg, emb⟩ := p
      simp [mkVecs, ih]

theorem mkVecs_mem (file : FileInfo) :
    ∀ L, ∀ v ∈ mkVecs file L,
      v.metadata.fileId = file.id ∧ v.id ∈ L.map (fun p => p.1) := by
  intro L
  induction L with
  | nil => intro v hv; cases hv
  | cons p rest ih =>
      intro v hv
      obtain ⟨cid, seg, emb⟩ := p
      simp only [mkVecs] at hv
      rcases List.mem_cons.mp hv with hv | hv
      · subst hv
        exact ⟨rfl, by simp⟩
      · obtain ⟨h1, h2⟩ := ih v hv
        exact ⟨h1, by simp [h2]⟩

/-- With fresh, duplicate-free ids the insert loop is a plain append of the
new rows and vector entries. -/
theorem insertLoop_spec (file : FileInfo) :
    ∀ (L : List (String × Segment × List Rat)) (i : Nat) (st : Store),
      (∀ p ∈ L, ∀ v ∈ st.vectors, v.id ≠ p.1) →
      (L.map (fun p => p.1)).Nodup →
      insertLoop file L i st =
        { chunks := st.chunks ++ mkRows file L i,
          vectors := st.vectors ++ mkVecs file L,
          status := st.status } := by
  intro L
  induction L with
  | nil => intro i st _ _; simp [insertLoop, mkRows, mkVecs]
  | cons p rest ih =>
      intro i st hfresh hnd
      obtain ⟨cid, seg, emb⟩ := p
      simp only [insertLoop]
      have hfcid : ∀ v ∈ st.vectors, v.id ≠ cid := by
        intro v hv
        exact hfresh (cid, seg, emb) (by simp) v hv
      have hfilter : st.vectors.filter (fun v => !(v.id == cid)) = st.vectors := by
        apply List.filter_eq_self.mpr
        intro v hv
        simpa using hfcid v hv
      have hndrest : (rest.map (fun p => p.1)).Nodup := by
        simp only [List.map_cons, List.nodup_cons] at hnd
        exact hnd.2
      have hcidrest : cid ∉ rest.map (fun p => p.1) := by
        simp only [List.map_cons, List.nodup_cons] at hnd
        exact hnd.1
      rw [ih (i + 1) _ ?_ hndrest]
      · simp only [insertChunk, upsertChunkVector, hfilter]
        simp [mkRows, mkVecs, List.append_assoc]
      · intro q hq v hv
        simp only [insertChunk, upsertChunkVector, hfilter] at hv
        rcases List.mem_append.mp hv with hv | hv
        · exact hfresh q (by simp [hq]) v hv
        · simp only [List.mem_singleton] at hv
          subst hv
          intro heq
          apply hcidrest
          simp only [List.mem_map]
          exact ⟨q, hq, by rw [← heq]⟩


/-- The chunk ids `deleteChunksForFile` returns for a file: ids of the
file's rows. -/
def existingChunkIds (st : Store) (fileId : String) : List String :=
  (st.chunks.filter (fun c => c.file_id == fileId)).map (fun c => c.id)

theorem deleteChunksForFile_eq (st : Store) (fileId : String) :
    deleteChunksForFile st fileId =
      (existingChunkIds st fileId,
       { st with chunks := st.chunks.filter (fun c => !(c.file_id == fileId)) }) := rfl

/-- C8: whenever the normalized embedding list disagrees in length with the
segment list, `ingestFileById` throws the count-mismatch error before the
replace protocol runs: the store — including every pre-existing chunk row
and vector entry of the file — is untouched. -/
theorem embedding_count_mismatch_aborts
    (st : Store) (file : FileInfo) (segs : List Segment)
    (embeddings : List (List Rat)) (newIds : List String)
    (hsegs : segs.length ≠ 0)
    (hmis : embeddings.length ≠ segs.length) :
    ingestReplace st file segs embeddings newIds =
      (st, .error .countMismatch) := by
  unfold ingestReplace
  rw [if_neg hsegs, if_pos hmis]


/-- A store holding one prior chunk row and vector entry for file `"f1"`. -/
def priorStore : Store where
  chunks := [{ id := "old-1", file_id := "f1", folder_id := "d1",
               owner_id := "alice", visibility := .personal,
               chunk_index := 0, start_line := 1, end_line := 2,
               content := "hello" }]
  vectors := [{ id := "old-1", embedding := [1],
                metadata := { chunkId := "old-1", fileId := "f1",
                              folderId := "d1", folderName := "Docs",
                              fileName := "a.txt", startLine := 1,
                              endLine := 2, visibility := .personal,
                              ownerId := "alice", organizationId := "",
                              teamId := none } }]
  status := [("f1", "uploading")]

/-- The file record the sample ingestions target. -/
def sampleFile : FileInfo where
  id := "f1"
  folder_id := "d1"
  folder_name := "Docs"
  file_name := "a.txt"
  owner_id := "alice"
  visibility := .personal

/-- The single segment of the sample ingestions. -/
def sampleSeg : Segment where
  content := "hello"
  startLine := 1
  endLine := 2

/-- Witness for C8: with one segment but zero embedding vectors, ingestion
returns the count-mismatch error and the prior generation survives intact. -/
theorem embedding_count_mismatch_aborts_witness :
    ingestReplace priorStore sampleFile [sampleSeg] [] ["new-1"] =
      (priorStore, .error .countMismatch) :=
  embedding_count_mismatch_aborts _ _ _ _ _ (by decide) (by decide)

/-- On a V2 (id-keyed) vector binding the replace protocol behaves as the
spec intends: under the run's guarantees — fresh, duplicate-free
`crypto.randomUUID()` ids, unique chunk-row primary keys, and a pre-state
whose vector entries for the file correspond to its chunk rows — a
successful (re-)ingestion removes every prior chunk id of the file from
both the chunk table and the vector index, and the file's chunk rows and
vector entries each number exactly the segments of the latest text.  (On a
V1 binding the staged call site breaks this; see the V1 embedding below.) -/
theorem ingest_replaces_generation
    (st : Store) (file : FileInfo) (segs : List Segment)
    (embeddings : List (List Rat)) (newIds : List String)
    (hsegs : segs.length ≠ 0)
    (hcount : embeddings.length = segs.length)
    (hids : newIds.length = segs.length)
    (hnodup : newIds.Nodup)
    (hfreshRows : ∀ nid ∈ newIds, ∀ c ∈ st.chunks, c.id ≠ nid)
    (hfreshVecs : ∀ nid ∈ newIds, ∀ v ∈ st.vectors, v.id ≠ nid)
    (hrowNodup : (st.chunks.map (fun c => c.id)).Nodup)
    (hcons : ∀ v ∈ st.vectors, v.metadata.fileId = file.id →
      v.id ∈ existingChunkIds st file.id) :
    (ingestReplace st file segs embeddings newIds).2 = .ok segs.length ∧
    (∀ oldId ∈ existingChunkIds st file.id,
      (∀ c ∈ (ingestReplace st file segs embeddings newIds).1.chunks,
        c.id ≠ oldId) ∧
      (∀ v ∈ (ingestReplace st file segs embeddings newIds).1.vectors,
        v.id ≠ oldId)) ∧
    ((ingestReplace st file segs embeddings newIds).1.chunks.filter
      (fun c => c.file_id == file.id)).length = segs.length ∧
    ((ingestReplace st file segs embeddings newIds).1.vectors.filter
      (fun v => v.metadata.fileId == file.id)).length = segs.length := by
  set L : List (String × Segment × List Rat) :=
    newIds.zip (segs.zip embeddings) with hL
  have hLfst : L.map (fun p => p.1) = newIds := by
    rw [hL]
    exact List.map_fst_zip _ _ (by rw [List.length_zip]; omega)
  have hLlen : L.length = segs.length := by
    rw [hL, List.length_zip, List.length_zip]; omega
  set kept : List ChunkRow :=
    st.chunks.filter (fun c => !(c.file_id == file.id)) with hkept
  set existing : List String := existingChunkIds st file.id with hexisting
  have hexmem : ∀ oldId ∈ existing, ∃ r ∈ st.chunks,
      r.file_id = file.id ∧ r.id = oldId := by
    intro oldId hold
    rw [hexisting] at hold
    unfold existingChunkIds at hold
    simp only [List.mem_map, List.mem_filter] at hold
    obtain ⟨r, ⟨hr, hrf⟩, hrid⟩ := hold
    exact ⟨r, hr, by simpa using hrf, hrid⟩
  have hfreshOld : ∀ nid ∈ newIds, ∀ oldId ∈ existing, nid ≠ oldId := by
    intro nid hnid oldId hold heq
    obtain ⟨r, hr, _, hrid⟩ := hexmem oldId hold
    exact hfreshRows nid hnid r hr (by rw [hrid, heq])
  have hrun : ingestReplace st file segs embeddings newIds =
      ({ chunks := kept ++ mkRows file L 0,
         vectors := st.vectors.filter (fun v => !(existing.contains v.id))
           ++ mkVecs file L,
         status := (st.status.filter (fun p => !(p.1 == file.id)))
           ++ [(file.id, "ready")] },
       .ok segs.length) := by
    unfold ingestReplace
    rw [if_neg hsegs, if_neg (by omega)]
    simp only [deleteChunksForFile_eq]
    have hvecs2 :
        (if existing ≠ [] then
          deleteChunkVectors { st with chunks := kept } existing
         else { st with chunks := kept }) =
        { st with
            chunks := kept,
            vectors := st.vectors.filter
              (fun v => !(existing.contains v.id)) } := by
      by_cases hex : existing = []
      · rw [if_neg (by simp [hex])]
        have hid : st.vectors.filter (fun v => !(existing.contains v.id)) =
            st.vectors := by
          apply List.filter_eq_self.mpr
          intro v _
          simp [hex]
        rw [hid]
      · rw [if_pos hex]
        unfold deleteChunkVectors
        rw [if_neg hex]
    rw [← hexisting, hvecs2]
    rw [insertLoop_spec file L 0 _ ?freshv ?ndv]
    case freshv =>
      intro p hp v hv
      have hpid : p.1 ∈ newIds := by
        rw [← hLfst]
        exact List.mem_map.mpr ⟨p, hp, rfl⟩
      exact hfreshVecs p.1 hpid v (List.mem_of_mem_filter hv)
    case ndv =>
      rw [hLfst]; exact hnodup
    rw [← hLlen]
    rfl
  rw [hrun]
  refine ⟨rfl, ?_, ?_, ?_⟩
  · intro oldId hold
    constructor
    · intro c hc heq
      rcases List.mem_append.mp hc with hc | hc
      · rw [hkept] at hc
        have hcm := List.mem_of_mem_filter hc
        have hcf : ¬ c.file_id = file.id := by
          have := (List.mem_filter.mp hc).2
          simpa using this
        obtain ⟨r, hr, hrf, hrid⟩ := hexmem oldId hold
        have : c = r := List.inj_on_of_nodup_map hrowNodup hcm hr
          (by rw [heq, hrid])
        rw [this] at hcf
        exact hcf hrf
      · have := (mkRows_mem file L 0 c hc).2
        rw [hLfst] at this
        exact hfreshOld c.id this oldId hold heq
    · intro v hv heq
      rcases List.mem_append.mp hv with hv | hv
      · have hvc : ¬ existing.contains v.id = true := by
          have := (List.mem_filter.mp hv).2
          simpa using this
        apply hvc
        rw [heq]
        exact List.elem_eq_true_of_mem hold
      · have := (mkVecs_mem file L v hv).2
        rw [hLfst] at this
        exact hfreshOld v.id this oldId hold heq
  · rw [List.filter_append]
    have h1 : kept.filter (fun c => c.file_id == file.id) = [] := by
      rw [hkept, List.filter_filter]
      apply List.filter_eq_nil_iff.mpr
      intro c _
      simp only [Bool.and_eq_true, Bool.not_eq_true', beq_iff_eq]
      rintro ⟨hp, hq⟩
      rw [hp] at hq
      simp at hq
    have h2 : (mkRows file L 0).filter (fun c => c.file_id == file.id) =
        mkRows file L 0 := by
      apply List.filter_eq_self.mpr
      intro c hc
      have := (mkRows_mem file L 0 c hc).1
      simp [this]
    rw [h1, h2, List.nil_append, mkRows_length, hLlen]
  · rw [List.filter_append]
    have h1 : (st.vectors.filter (fun v => !(existing.contains v.id))).filter
        (fun v => v.metadata.fileId == file.id) = [] := by
      rw [List.filter_filter]
      apply List.filter_eq_nil_iff.mpr
      intro v hv
      simp only [Bool.and_eq_true, Bool.not_eq_true', beq_iff_eq]
      intro h
      have hmem : v.id ∈ existing := hcons v hv h.1
      have hc2 : existing.contains v.id = true :=
        List.elem_eq_true_of_mem hmem
      rw [h.2] at hc2
      exact Bool.false_ne_true hc2
    have h2 : (mkVecs file L).filter
        (fun v => v.metadata.fileId == file.id) = mkVecs file L := by
      apply List.filter_eq_self.mpr
      intro v hv
      have := (mkVecs_mem file L v hv).1
      simp [this]
    rw [h1, h2, List.nil_append, mkVecs_length, hLlen]



/-- Concrete instance of `ingest_replaces_generation`: re-ingesting file
`"f1"` over a V2-binding store holding one prior chunk (`"old-1"`) with one
new segment and a fresh id `"new-1"` removes the old generation everywhere
and leaves exactly one row and one vector entry. -/
theorem ingest_replaces_generation_witness :
    (ingestReplace priorStore sampleFile [sampleSeg] [[(1 : Rat)]]
      ["new-1"]).2 = .ok [sampleSeg].length ∧
    (∀ oldId ∈ existingChunkIds priorStore sampleFile.id,
      (∀ c ∈ (ingestReplace priorStore sampleFile [sampleSeg] [[(1 : Rat)]]
          ["new-1"]).1.chunks, c.id ≠ oldId) ∧
      (∀ v ∈ (ingestReplace priorStore sampleFile [sampleSeg] [[(1 : Rat)]]
          ["new-1"]).1.vectors, v.id ≠ oldId)) ∧
    ((ingestReplace priorStore sampleFile [sampleSeg] [[(1 : Rat)]]
      ["new-1"]).1.chunks.filter
        (fun c => c.file_id == sampleFile.id)).length = [sampleSeg].length ∧
    ((ingestReplace priorStore sampleFile [sampleSeg] [[(1 : Rat)]]
      ["new-1"]).1.vectors.filter
        (fun v => v.metadata.fileId == sampleFile.id)).length =
      [sampleSeg].length :=
  ingest_replaces_generation priorStore sampleFile [sampleSeg]
    [[(1 : Rat)]] ["new-1"] (by decide) (by decide) (by decide) (by decide)
    (by decide) (by decide) (by decide) (by decide)

/-! ## The V1 (namespaced) branch and the stale `ingestion.ts` call

`deleteChunkVectors` has a second branch for V1 (namespaced) bindings
(`vectorize.ts` 115–130): it resolves a namespace via
`partitionForVisibility` and calls `binding.delete(namespace, chunkIds)`.
The staged `ingestion.ts` invokes the three-parameter function with four
positional arguments — `deleteChunkVectors(env, existing, file.visibility,
file.owner_id)` (line 167) — so `metadata` is bound to the *string*
`file.visibility`.  Every field access on it yields `undefined`, both
visibility comparisons fail, and `partitionForVisibility` computes
`personalNamespace(String(undefined))` = `user:dW5kZWZpbmVk`, deleting
from a namespace that holds nothing.  The model below embeds that branch
as called, to evaluate the program on it. -/

/-- One entry of a namespaced (V1) vector index: the namespace addressed by
the call that wrote it, plus id, embedding and metadata. -/
structure V1VecEntry where
  ns : String
  id : String
  embedding : List Rat
  metadata : VectorMetadata
deriving DecidableEq, Repr

/-- Chunk table, V1 (namespaced) vector index, and per-file status map. -/
structure V1Store where
  chunks : List ChunkRow
  vectors : List V1VecEntry
  status : List (String × String)
deriving DecidableEq, Repr

/-- `binding.delete(namespace, chunkIds)` on a V1 binding: remove the given
ids within the addressed namespace only. -/
def v1Delete (vecs : List V1VecEntry) (nsArg : String)
    (chunkIds : List String) : List V1VecEntry :=
  vecs.filter (fun v => !(v.ns == nsArg && chunkIds.contains v.id))

/-- The namespace the stale `ingestion.ts` line-167 call resolves on the V1
branch: `metadata` is the string `file.visibility`, its `visibility` and
`ownerId` fields read as `undefined`, so `partitionForVisibility` falls
through to `personalNamespace(String(undefined))`. -/
def staleDeleteNamespace : Option String := personalNamespace "undefined"

/-- The V1 branch of `deleteChunkVectors` (`vectorize.ts` 115–130) as
invoked from `ingestion.ts` 164–172 with the mis-bound `metadata` argument:
resolve the (bogus) namespace, then delete the ids there.  An empty id list
is a no-op; `none` models a propagated encoder throw. -/
def v1DeleteChunkVectorsStale (vecs : List V1VecEntry)
    (chunkIds : List String) : Option (List V1VecEntry) :=
  if chunkIds = [] then some vecs
  else staleDeleteNamespace.map (fun nsArg => v1Delete vecs nsArg chunkIds)

/-- `upsertChunkVector` on a V1 binding (`vectorize.ts` 90–93):
`binding.upsert(namespace, vectors)` under the partition resolved from the
vector's own metadata, replacing any entry with the same id in that
namespace. -/
def v1UpsertChunkVector (vecs : List V1VecEntry) (chunkId : String)
    (embedding : List Rat) (metadata : VectorMetadata) :
    Option (List V1VecEntry) :=
  (partitionForVisibility metadata).map (fun nsArg =>
    vecs.filter (fun v => !(v.ns == nsArg && v.id == chunkId)) ++
      [{ ns := nsArg, id := chunkId, embedding := embedding,
         metadata := metadata }])

/-- The per-index loop of `ingestFileById` (`ingestion.ts` 175–219) against
a V1 binding: insert the chunk row, then upsert its vector into the
partition of its metadata. -/
def v1InsertLoop (file : FileInfo) :
    List (String × Segment × List Rat) → Nat → V1Store → Option V1Store
  | [], _, st => some st
  | (chunkId, seg, emb) :: rest, index, st => do
      let st1 : V1Store := { st with chunks := st.chunks ++ [{
        id := chunkId
        file_id := file.id
        folder_id := file.folder_id
        owner_id := file.owner_id
        visibility := file.visibility
        chunk_index := index
        start_line := seg.startLine
        end_line := seg.endLine
        content := seg.content }] }
      let vecs2 ← v1UpsertChunkVector st1.vectors chunkId emb {
        chunkId := chunkId
        fileId := file.id
        folderId := file.folder_id
        folderName := file.folder_name
        fileName := file.file_name
        startLine := seg.startLine
        endLine := seg.endLine
        visibility := file.visibility
        ownerId := file.owner_id
        organizationId := ""
        teamId := none }
      v1InsertLoop file rest (index + 1) { st1 with vectors := vecs2 }

/-- The tail of `ingestFileById` (`ingestion.ts` 128–229) against a V1
(namespaced) binding, including the stale four-argument
`deleteChunkVectors` call at line 167. -/
def v1IngestReplace (st : V1Store) (file : FileInfo) (segs : List Segment)
    (embeddings : List (List Rat)) (newIds : List String) :
    Option (V1Store × Except IngestErr Nat) :=
  if segs.length = 0 then some (st, .error .noContent)
  else if embeddings.length ≠ segs.length then
    some (st, .error .countMismatch)
  else do
    let existing := (st.chunks.filter
      (fun c => c.file_id == file.id)).map (fun c => c.id)
    let keptRows := st.chunks.filter (fun c => !(c.file_id == file.id))
    let st1 : V1Store := { st with chunks := keptRows }
    let vecs2 ←
      if existing ≠ [] then v1DeleteChunkVectorsStale st1.vectors existing
      else some st1.vectors
    let st3 ← v1InsertLoop file (newIds.zip (segs.zip embeddings)) 0
      { st1 with vectors := vecs2 }
    let newStatus := st3.status.filter (fun p => !(p.1 == file.id)) ++
      [(file.id, "ready")]
    some ({ st3 with status := newStatus }, .ok segs.length)

/-- A V1 store holding one prior chunk row for file `"f1"` and its vector
entry in the owner's real partition `user:YWxpY2U`. -/
def v1PriorStore : V1Store where
  chunks := [{ id := "old-1", file_id := "f1", folder_id := "d1",
               owner_id := "alice", visibility := .personal,
               chunk_index := 0, start_line := 1, end_line := 2,
               content := "hello" }]
  vectors := [{ ns := "user:YWxpY2U", id := "old-1", embedding := [1],
                metadata := { chunkId := "old-1", fileId := "f1",
                              folderId := "d1", folderName := "Docs",
                              fileName := "a.txt", startLine := 1,
                              endLine := 2, visibility := .personal,
                              ownerId := "alice", organizationId := "",
                              teamId := none } }]
  status := [("f1", "uploading")]

/-- The state the V1 run below actually reaches: the new generation is in
place, the file is `ready` — and the old vector entry is still there. -/
def v1AfterStore : V1Store where
  chunks := [{ id := "new-1", file_id := "f1", folder_id := "d1",
               owner_id := "alice", visibility := .personal,
               chunk_index := 0, start_line := 1, end_line := 2,
               content := "hello" }]
  vectors := [{ ns := "user:YWxpY2U", id := "old-1", embedding := [1],
                metadata := { chunkId := "old-1", fileId := "f1",
                              folderId := "d1", folderName := "Docs",
                              fileName := "a.txt", startLine := 1,
                              endLine := 2, visibility := .personal,
                              ownerId := "alice", organizationId := "",
                              teamId := none } },
              { ns := "user:YWxpY2U", id := "new-1", embedding := [1],
                metadata := { chunkId := "new-1", fileId := "f1",
                              folderId := "d1", folderName := "Docs",
                              fileName := "a.txt", startLine := 1,
                              endLine := 2, visibility := .personal,
                              ownerId := "alice", organizationId := "",
                              teamId := none } }]
  status := [("f1", "ready")]

/-- C1: evaluation of the code at the failing input.  Against a V1
(namespaced) binding, the stale `ingestion.ts` line-167 call deletes from
the bogus namespace `user:dW5kZWZpbmVk` instead of the owner's partition
`user:YWxpY2U`, so re-ingesting file `"f1"` completes successfully while
the prior generation's vector entry `"old-1"` survives: the file ends with
two vector entries where the claim requires as many as segments (one). -/
theorem stale_v1_delete_keeps_old_vectors :
    v1IngestReplace v1PriorStore sampleFile [sampleSeg] [[(1 : Rat)]]
        ["new-1"] = some (v1AfterStore, .ok [sampleSeg].length) ∧
    staleDeleteNamespace = some "user:dW5kZWZpbmVk" ∧
    "old-1" ∈ v1AfterStore.vectors.map (fun v => v.id) ∧
    (v1AfterStore.vectors.filter
      (fun v => v.metadata.fileId == sampleFile.id)).length = 2 ∧
    [sampleSeg].length = 1 := by
  refine ⟨rfl, rfl, by decide, by decide, rfl⟩


/-! ## `handleChat` (`session.ts` 102–288)

The route handler, shallowly embedded: external collaborators (embedding,
per-namespace vector query, chunk hydration, completion model) are supplied
as functions, and the observable effects — namespaces queried, chat records
written — are returned alongside the response.  Per the catch at lines
187–191, a namespace query error is already collapsed into an empty match
list, so `queryResult` models the post-catch result.  `openai.ts` is not
part of the sources; its two completion calls are modelled from the spec
(see `ChatDeps`). -/

/-- A JavaScript `\s` whitespace character (the common subset; the exotic
Unicode space classes do not occur in the claims). -/
def isJsWs (c : Char) : Bool :=
  c = ' ' || c = '\t' || c = '\n' || c = '\r' ||
  c = Char.ofNat 11 || c = Char.ofNat 12

/-- A JavaScript line terminator (excluded by `.` in a regex). -/
def isLineTerm (c : Char) : Bool := c = '\n' || c = '\r'

/-- `String.prototype.trim`. -/
def trimM (s : String) : String :=
  String.mk (((s.data.dropWhile isJsWs).reverse.dropWhile isJsWs).reverse)

/-- `rawMessage.match(/^\/lookup\s*(.*)$/i)` (`session.ts` 120): `none` when
the message does not match, otherwise the capture group — the remainder
after the case-insensitive `/lookup` prefix with its whitespace run removed,
provided that remainder spans no line terminator. -/
def lookupMatch (s : String) : Option String :=
  if (s.data.take 7).map Char.toLower = "/lookup".data then
    let cap := (s.data.drop 7).dropWhile isJsWs
    if cap.any isLineTerm then none
    else some (String.mk cap)
  else none

/-- `lookupMatch ? (lookupMatch[1] ?? '').trim() : rawMessage`
(`session.ts` 143). -/
def lookupQueryOf (rawMessage : String) : String :=
  match lookupMatch rawMessage with
  | some cap => trimM cap
  | none => rawMessage

/-- A citation tuple of the structured completion response. -/
structure Citation where
  folder : String
  file : String
  startLine : Nat
  endLine : Nat
deriving DecidableEq, Repr

/-- The structured completion result (`generateStructuredAnswer`). -/
structure StructuredAnswer where
  answer : String
  citations : List Citation
deriving DecidableEq, Repr

/-- A chunk row as hydrated by `getChunksByIds` (`db.ts`): the chunk columns
joined with the file and folder names. -/
structure ChunkCtx where
  id : String
  folder_name : String
  file_name : String
  start_line : Nat
  end_line : Nat
  content : String
deriving DecidableEq, Repr

/-- One entry of `contexts` (`session.ts` 228–250). -/
structure Context where
  order : Nat
  chunkId : String
  folderName : String
  fileName : String
  startLine : Nat
  endLine : Nat
  content : String
deriving DecidableEq, Repr

/-- External collaborators of `handleChat`.

`generalAnswer` is modelled from the spec: `openai.ts` is not among the
sources, and the spec fixes the contract — "skip retrieval entirely and ask
the completion model directly (general chat; citations always empty)" — so
the general completion yields an answer and no citations.
`structuredAnswer` models `generateStructuredAnswer` (`question + ordered
contexts → {answer, citations[]}`).  `embedQuestion` models
`createEmbeddings` followed by `normalizeQuestionEmbedding`, `.error` being
a thrown failure. `queryResult` is the per-namespace match list after the
error-isolation catch. `chunkRow` is the relational row for a chunk id. -/
structure ChatDeps where
  embedQuestion : String → Except String (List Rat)
  queryResult : String → List VectorMatch
  chunkRow : String → Option ChunkCtx
  generalAnswer : String → String
  structuredAnswer : String → List Context → StructuredAnswer

/-- The response body of `handleChat`. -/
structure ChatResponse where
  id : String
  answer : String
  citations : List Citation
  sources : List Context
deriving DecidableEq, Repr

/-- One `recordChat` insertion into the `messages` table (the citations are
stored JSON-serialized; the model keeps the list). -/
structure ChatRecord where
  id : String
  user_id : String
  question : String
  answer : String
  citations : List Citation
deriving DecidableEq, Repr

/-- Observable outcome of a successful `handleChat` run: the JSON response,
the namespaces passed to `queryNamespace`, and the chat records written. -/
structure ChatOutcome where
  response : ChatResponse
  queried : List String
  recorded : List ChatRecord
deriving DecidableEq, Repr

/-- Thrown `HTTPException`s (and a propagated encoder throw). -/
inductive ChatErr where
  | badRequest
  | embedFailure
  | encodeThrow
deriving DecidableEq, Repr

/-- The fixed reply for scope `team` without memberships
(`session.ts` 172). -/
def joinTeamMessage : String :=
  "Join a team to search team-specific knowledge. You are not a member of any teams yet."

/-- The fixed reply when nothing relevant is found (`session.ts` 218/255). -/
def notFoundMessage : String :=
  "I couldn\x27t find anything relevant in your Marble files."

/-- The hydration step (`session.ts` 225–250): look up each top match's
chunk row, keep its live content, silently drop unresolved ids. -/
def contextsOf (deps : ChatDeps) (top : List (Rat × VectorMatch)) :
    List Context :=
  top.enum.filterMap (fun p =>
    match deps.chunkRow p.2.2.chunkId with
    | none => none
    | some ch => some {
        order := p.1
        chunkId := ch.id
        folderName := ch.folder_name
        fileName := ch.file_name
        startLine := ch.start_line
        endLine := ch.end_line
        content := ch.content })

/-- `handleChat` (`session.ts` 102–288).  `chatId` supplies the
`crypto.randomUUID()` value of the branch that responds; `topK` is the
already-parsed `VECTOR_TOP_K`. -/
def handleChat (deps : ChatDeps) (userId organisationId : String)
    (teamIds : List String) (message : String) (knowledgeMode : Bool)
    (scope : ChatScope) (topK : Nat) (chatId : String) :
    Except ChatErr ChatOutcome :=
  let rawMessage := trimM message
  if rawMessage = "" then .error .badRequest
  else
    let shouldLookup := knowledgeMode || (lookupMatch rawMessage).isSome
    if shouldLookup = false then
      let answer := deps.generalAnswer rawMessage
      .ok {
        response := { id := chatId, answer := answer, citations := [],
                      sources := [] }
        queried := []
        recorded := [{ id := chatId, user_id := userId,
                       question := rawMessage, answer := answer,
                       citations := [] }] }
    else
      let lookupQuery := lookupQueryOf rawMessage
      if lookupQuery = "" then .error .badRequest
      else
        match deps.embedQuestion lookupQuery with
        | .error _ => .error .embedFailure
        | .ok _embedding =>
          match resolveNamespaces scope organisationId userId teamIds with
          | none => .error .encodeThrow
          | some namespaces =>
            if scope = .team ∧ teamIds = [] then
              .ok {
                response := { id := chatId, answer := joinTeamMessage,
                              citations := [], sources := [] }
                queried := []
                recorded := [{ id := chatId, user_id := userId,
                               question := rawMessage,
                               answer := joinTeamMessage, citations := [] }] }
            else
              let results := namespaces.map deps.queryResult
              let top := topMatches results topK
              let chunkIds : List String := top.map (fun e => e.2.chunkId)
              if chunkIds = [] then
                .ok {
                  response := { id := chatId, answer := notFoundMessage,
                                citations := [], sources := [] }
                  queried := namespaces
                  recorded := [] }
              else
                let contexts := contextsOf deps top
                if contexts = [] then
                  .ok {
                    response := { id := chatId, answer := notFoundMessage,
                                  citations := [], sources := [] }
                    queried := namespaces
                    recorded := [] }
                else
                  let structured := deps.structuredAnswer lookupQuery contexts
                  .ok {
                    response := { id := chatId, answer := structured.answer,
                                  citations := structured.citations,
                                  sources := contexts }
                    queried := namespaces
                    recorded := [{ id := chatId, user_id := userId,
                                   question := rawMessage,
                                   answer := structured.answer,
                                   citations := structured.citations }] }



theorem resolveNamespaces_team_noTeams (o u : String) :
    resolveNamespaces .team o u [] = some [] := by
  simp [resolveNamespaces]

/-- C5: with `knowledgeMode` false and a message that does not match the
`/lookup` command, `handleChat` asks the general completion directly: no
namespace is queried and the response carries empty citations (the general
completion is citation-free; see `ChatDeps`). -/
theorem general_chat_skips_retrieval (deps : ChatDeps)
    (userId organisationId : String) (teamIds : List String)
    (message : String) (scope : ChatScope) (topK : Nat) (chatId : String)
    (hmsg : trimM message ≠ "")
    (hnl : lookupMatch (trimM message) = none) :
    handleChat deps userId organisationId teamIds message false scope topK
        chatId =
      .ok { response := { id := chatId,
                          answer := deps.generalAnswer (trimM message),
                          citations := [], sources := [] },
            queried := [],
            recorded := [{ id := chatId, user_id := userId,
                           question := trimM message,
                           answer := deps.generalAnswer (trimM message),
                           citations := [] }] } := by
  simp only [handleChat, hnl, Option.isSome_none, Bool.or_false,
    Bool.false_or]
  rw [if_neg hmsg]
  simp

/-- C6: a knowledge-grounded request with scope `team` from a caller with no
active team memberships gets the fixed join-a-team reply, with empty
citations and sources, and no vector-index query is issued. -/
theorem team_scope_without_membership (deps : ChatDeps)
    (userId organisationId : String) (message : String) (topK : Nat)
    (chatId : String)
    (hmsg : trimM message ≠ "")
    (hlq : lookupQueryOf (trimM message) ≠ "")
    (emb : List Rat)
    (hembed : deps.embedQuestion (lookupQueryOf (trimM message)) = .ok emb) :
    handleChat deps userId organisationId [] message true .team topK chatId =
      .ok { response := { id := chatId, answer := joinTeamMessage,
                          citations := [], sources := [] },
            queried := [],
            recorded := [{ id := chatId, user_id := userId,
                           question := trimM message,
                           answer := joinTeamMessage, citations := [] }] } := by
  simp only [handleChat, Bool.true_or]
  rw [if_neg hmsg]
  rw [if_neg hlq, hembed, resolveNamespaces_team_noTeams]
  simp

/-- The fixed not-found outcome (`session.ts` 214–222 and 252–260): no
chat record is written. -/
def notFoundOutcome (chatId : String) (namespaces : List String) :
    ChatOutcome where
  response := { id := chatId, answer := notFoundMessage, citations := [],
                sources := [] }
  queried := namespaces
  recorded := []

/-- The structured-answer outcome (`session.ts` 268–287): exactly one chat
record is written. -/
def structuredOutcome (deps : ChatDeps) (userId : String)
    (rawMessage lookupQuery : String) (contexts : List Context)
    (namespaces : List String) (chatId : String) : ChatOutcome :=
  let structured := deps.structuredAnswer lookupQuery contexts
  { response := { id := chatId, answer := structured.answer,
                  citations := structured.citations, sources := contexts }
    queried := namespaces
    recorded := [{ id := chatId, user_id := userId, question := rawMessage,
                   answer := structured.answer,
                   citations := structured.citations }] }

/-- C10: on the knowledge-grounded path (past the join-a-team guard), zero
hydrated contexts — whether because the merged match list or the hydration
step is empty — yield the fixed not-found reply with no chat record
written, while a non-empty context list yields the structured
model-generated answer with exactly one chat record written. -/
theorem knowledge_path_record_frame (deps : ChatDeps)
    (userId organisationId : String) (teamIds : List String)
    (message : String) (scope : ChatScope) (topK : Nat) (chatId : String)
    (hmsg : trimM message ≠ "")
    (hlq : lookupQueryOf (trimM message) ≠ "")
    (emb : List Rat)
    (hembed : deps.embedQuestion (lookupQueryOf (trimM message)) = .ok emb)
    (namespaces : List String)
    (hns : resolveNamespaces scope organisationId userId teamIds =
      some namespaces)
    (hnt : ¬ (scope = .team ∧ teamIds = [])) :
    (contextsOf deps (topMatches (namespaces.map deps.queryResult) topK)
        = [] →
      handleChat deps userId organisationId teamIds message true scope topK
          chatId = .ok (notFoundOutcome chatId namespaces)) ∧
    (contextsOf deps (topMatches (namespaces.map deps.queryResult) topK)
        ≠ [] →
      handleChat deps userId organisationId teamIds message true scope topK
          chatId =
        .ok (structuredOutcome deps userId (trimM message)
          (lookupQueryOf (trimM message))
          (contextsOf deps (topMatches (namespaces.map deps.queryResult)
            topK)) namespaces chatId)) := by
  constructor
  · intro hctx
    simp only [handleChat, Bool.true_or]
    rw [if_neg hmsg]
    rw [if_neg hlq, hembed, hns]
    dsimp only
    rw [if_neg hnt]
    by_cases hck : (topMatches (namespaces.map deps.queryResult) topK).map
        (fun e => e.2.chunkId) = []
    · rw [if_pos hck]
      simp [notFoundOutcome]
    · rw [if_neg hck, if_pos hctx]
      simp [notFoundOutcome]
  · intro hctx
    have hck : (topMatches (namespaces.map deps.queryResult) topK).map
        (fun e => e.2.chunkId) ≠ [] := by
      intro hnil
      apply hctx
      have hnil2 : topMatches (namespaces.map deps.queryResult) topK = [] :=
        List.map_eq_nil_iff.mp hnil
      rw [hnil2]
      rfl
    simp only [handleChat, Bool.true_or]
    rw [if_neg hmsg]
    rw [if_neg hlq, hembed, hns]
    dsimp only
    rw [if_neg hnt, if_neg hck, if_neg hctx]
    simp [structuredOutcome]



/-- Concrete collaborators for the `handleChat` witnesses. -/
def sampleDeps : ChatDeps where
  embedQuestion _ := .ok [1]
  queryResult _ := []
  chunkRow _ := none
  generalAnswer _ := "General reply"
  structuredAnswer _ _ := { answer := "Structured reply", citations := [] }

/-- Witness for C5 at the concrete message `"hello"`. -/
theorem general_chat_skips_retrieval_witness :
    handleChat sampleDeps "alice" "org-1" [] "hello" false .all 8 "chat-1" =
      .ok { response := { id := "chat-1",
                          answer := sampleDeps.generalAnswer (trimM "hello"),
                          citations := [], sources := [] },
            queried := [],
            recorded := [{ id := "chat-1", user_id := "alice",
                           question := trimM "hello",
                           answer := sampleDeps.generalAnswer (trimM "hello"),
                           citations := [] }] } :=
  general_chat_skips_retrieval sampleDeps "alice" "org-1" [] "hello" .all 8
    "chat-1" (by decide) (by decide)

/-- Witness for C6 at the concrete question `"What is Marble?"`. -/
theorem team_scope_without_membership_witness :
    handleChat sampleDeps "alice" "org-1" [] "What is Marble?" true .team 8
        "chat-2" =
      .ok { response := { id := "chat-2", answer := joinTeamMessage,
                          citations := [], sources := [] },
            queried := [],
            recorded := [{ id := "chat-2", user_id := "alice",
                           question := trimM "What is Marble?",
                           answer := joinTeamMessage, citations := [] }] } :=
  team_scope_without_membership sampleDeps "alice" "org-1" "What is Marble?"
    8 "chat-2" (by decide) (by decide) [1] rfl

/-- Witness for C10: an org-scope question finding no contexts gets the
fixed not-found outcome with no chat record. -/
theorem knowledge_path_record_frame_witness :
    handleChat sampleDeps "alice" "org-1" [] "What is Marble?" true .org 8
        "chat-3" = .ok (notFoundOutcome "chat-3" ["org:b3JnLTE"]) :=
  (knowledge_path_record_frame sampleDeps "alice" "org-1" []
    "What is Marble?" .org 8 "chat-3" (by decide) (by decide) [1] rfl
    ["org:b3JnLTE"] (by decide) (by decide)).1 (by decide)

end Marble
